import Mathlib

/-!
Verification of the idea-list parser `parse_ideas_response` from
`src/lambda_ideation/app.py` of the aws-travel-assistant repository.

Python strings are modelled as lists of characters (`PyStr`); the ASCII
whitespace set of `str.strip`, single-character `str.split`, `str.split(sep, 1)`
and `str.lower` are embedded as executable functions, and the line-oriented
state machine of the parser is embedded as a fold over the list of lines.
-/

namespace TravelAssistant

/-- Python strings, modelled as lists of characters. -/
abbrev PyStr := List Char

/-- Whitespace characters removed by Python `str.strip` (ASCII range). -/
def isPySpace (c : Char) : Bool :=
  c == ' ' || c == '\t' || c == '\n' || c == '\r' || c == '\x0b' || c == '\x0c'

/-- Python `str.strip()`: remove leading and trailing whitespace. -/
def pstrip (s : PyStr) : PyStr :=
  ((s.dropWhile isPySpace).reverse.dropWhile isPySpace).reverse

/-- Python `str.split(sep)` for a single-character separator: split on every
occurrence, keeping empty pieces (`"".split(sep) == [""]`). -/
def splitChar (sep : Char) : PyStr → List PyStr
  | [] => [[]]
  | c :: rest =>
    let r := splitChar sep rest
    if c == sep then [] :: r
    else (c :: r.headD []) :: r.tail

/-- Python `str.split(sep, 1)`: split at most once, at the first separator. -/
def splitOnce (sep : Char) (s : PyStr) : List PyStr :=
  if s.contains sep then
    [s.takeWhile (fun c => !(c == sep)), (s.dropWhile (fun c => !(c == sep))).tail]
  else [s]

/-- The text strictly after the first occurrence of `sep` in `s`
(empty when `sep` does not occur). -/
def afterFirst (sep : Char) (s : PyStr) : PyStr :=
  (s.dropWhile (fun c => !(c == sep))).tail

/-- Python `str.lower()` (ASCII letters). -/
def plower (s : PyStr) : PyStr := s.map Char.toLower

/-- The structured idea record built by the parser: a Python dict with the
four keys `title`, `description`, `highlights`, `duration`. -/
structure Idea where
  title : PyStr
  description : PyStr
  highlights : List PyStr
  duration : PyStr
deriving DecidableEq

/-- The five numbered-list markers recognised by the parser
(`line.startswith(('1.', '2.', '3.', '4.', '5.'))`). -/
def numberedMarkers : List PyStr :=
  ["1.".toList, "2.".toList, "3.".toList, "4.".toList, "5.".toList]

/-- The block-opening condition of the parser:
`line.startswith(('1.', '2.', '3.', '4.', '5.')) and ':' in line`. -/
def opensBlock (line : PyStr) : Bool :=
  (numberedMarkers.any (fun p => p.isPrefixOf line)) && line.contains ':'

/-- `if current_idea and current_idea.get('title'): ideas.append(current_idea)` —
the flush of the current idea into the output list, used both when a new block
opens and after the last line. -/
def flushCurrent (ideas : List Idea) (cur : Option Idea) : List Idea :=
  match cur with
  | none => ideas
  | some c => if c.title = [] then ideas else ideas ++ [c]

/-- The fresh idea built when a block-opening line is seen:
`title_parts = line.split(':', 1)`; title is `title_parts[1].strip()` when the
split produced two parts, else the whole line; the other fields start empty. -/
def newIdea (line : PyStr) : Idea :=
  let title_parts := splitOnce ':' line
  { title := if title_parts.length > 1 then pstrip (title_parts.getD 1 []) else line
    description := []
    highlights := []
    duration := [] }

/-- One iteration of the parser's `for line in response.strip().split('\n')`
loop body, acting on the state `(ideas, current_idea)`. -/
def processLine (st : List Idea × Option Idea) (rawLine : PyStr) :
    List Idea × Option Idea :=
  let line := pstrip rawLine
  if line = [] then st
  else if opensBlock line then
    (flushCurrent st.1 st.2, some (newIdea line))
  else
    match st.2 with
    | none => st
    | some cur =>
      if ("description:".toList).isPrefixOf (plower line) then
        (st.1, some { cur with description := pstrip ((splitOnce ':' line).getD 1 []) })
      else if ("highlight".toList).isPrefixOf (plower line) then
        (st.1, some { cur with highlights := cur.highlights ++
          [if line.contains ':' then pstrip ((splitOnce ':' line).getD 1 []) else line] })
      else if ("duration:".toList).isPrefixOf (plower line) then
        (st.1, some { cur with duration := pstrip ((splitOnce ':' line).getD 1 []) })
      else if !(cur.description.isEmpty) && !(("-".toList).isPrefixOf line) then
        (st.1, some { cur with description := cur.description ++ [' '] ++ line })
      else if ("-".toList).isPrefixOf line then
        (st.1, some { cur with highlights := cur.highlights ++ [pstrip line.tail] })
      else st

/-- The list of ideas accumulated by the loop, after the final flush of the
current idea (the body of `parse_ideas_response` before the fallback check). -/
def parsedIdeas (response : PyStr) : List Idea :=
  let st := (splitChar '\n' (pstrip response)).foldl processLine ([], none)
  flushCurrent st.1 st.2

/-- The fallback record returned when no structured idea was parsed (and by the
exception handler): title `"Travel Recommendations"`, description the trimmed
raw input, empty highlights, empty duration. -/
def fallbackRecord (response : PyStr) : Idea :=
  { title := "Travel Recommendations".toList
    description := pstrip response
    highlights := []
    duration := [] }

/-- `parse_ideas_response` from `src/lambda_ideation/app.py`. -/
def parse_ideas_response (response : PyStr) : List Idea :=
  let ideas := parsedIdeas response
  if ideas = [] then [fallbackRecord response] else ideas

/-!
### Instrumented parser

To state the order invariant (records appear in the order their opening lines
appear in the text) we run the same state machine while tagging the current
idea with the index of the line that opened its block. `eraseIdx` forgets the
tags; the theorems below show the instrumented run projects onto the plain run.
-/

/-- `flushCurrent` on tagged ideas. -/
def flushCurrentIdx (ideas : List (Nat × Idea)) (cur : Option (Nat × Idea)) :
    List (Nat × Idea) :=
  match cur with
  | none => ideas
  | some c => if c.2.title = [] then ideas else ideas ++ [c]

/-- `processLine` on tagged ideas: `i` is the index of the line being
processed, recorded on the fresh idea when the line opens a block. -/
def processLineIdx (st : List (Nat × Idea) × Option (Nat × Idea)) (i : Nat)
    (rawLine : PyStr) : List (Nat × Idea) × Option (Nat × Idea) :=
  let line := pstrip rawLine
  if line = [] then st
  else if opensBlock line then
    (flushCurrentIdx st.1 st.2, some (i, newIdea line))
  else
    match st.2 with
    | none => st
    | some cur =>
      if ("description:".toList).isPrefixOf (plower line) then
        (st.1, some (cur.1, { cur.2 with
          description := pstrip ((splitOnce ':' line).getD 1 []) }))
      else if ("highlight".toList).isPrefixOf (plower line) then
        (st.1, some (cur.1, { cur.2 with highlights := cur.2.highlights ++
          [if line.contains ':' then pstrip ((splitOnce ':' line).getD 1 []) else line] }))
      else if ("duration:".toList).isPrefixOf (plower line) then
        (st.1, some (cur.1, { cur.2 with
          duration := pstrip ((splitOnce ':' line).getD 1 []) }))
      else if !(cur.2.description.isEmpty) && !(("-".toList).isPrefixOf line) then
        (st.1, some (cur.1, { cur.2 with
          description := cur.2.description ++ [' '] ++ line }))
      else if ("-".toList).isPrefixOf line then
        (st.1, some (cur.1, { cur.2 with
          highlights := cur.2.highlights ++ [pstrip line.tail] }))
      else st

/-- Run the tagged state machine over the lines, numbering them from `i`. -/
def runIdx : List PyStr → Nat → List (Nat × Idea) × Option (Nat × Idea) →
    List (Nat × Idea) × Option (Nat × Idea)
  | [], _, st => st
  | l :: ls, i, st => runIdx ls (i + 1) (processLineIdx st i l)

/-- Forget the line-index tags. -/
def eraseIdx (st : List (Nat × Idea) × Option (Nat × Idea)) :
    List Idea × Option Idea :=
  (st.1.map Prod.snd, st.2.map Prod.snd)

/-- The parsed records, each tagged with the index of the line that opened its
block. -/
def parsedIdeasIdx (response : PyStr) : List (Nat × Idea) :=
  let st := runIdx (splitChar '\n' (pstrip response)) 0 ([], none)
  flushCurrentIdx st.1 st.2

/-- Well-formedness of a tagged state after the first `n` lines: tags of
flushed records are strictly increasing, all tags are below `n`, and the
current idea's tag is above every flushed tag. -/
def IdxOk (st : List (Nat × Idea) × Option (Nat × Idea)) (n : Nat) : Prop :=
  st.1.Pairwise (fun p q => p.1 < q.1) ∧
  (∀ p ∈ st.1, p.1 < n) ∧
  (∀ p ∈ st.2, p.1 < n ∧ ∀ q ∈ st.1, q.1 < p.1)

example : parse_ideas_response ("hello".toList) =
    [{ title := "Travel Recommendations".toList, description := "hello".toList,
       highlights := [], duration := [] }] := by decide

example : parse_ideas_response ("1. A: T\nDescription: D\n- H".toList) =
    [{ title := "T".toList, description := "D".toList,
       highlights := ["H".toList], duration := [] }] := by decide

/-! ### Helper lemmas -/

/-- Only the colon lowercases to a colon (ASCII `str.lower` moves `A`–`Z`
into `a`–`z` and fixes everything else). -/
theorem toLower_eq_colon {c : Char} (h : Char.toLower c = ':') : c = ':' := by
  unfold Char.toLower at h
  dsimp only at h
  split at h
  · rename_i hc
    obtain ⟨h1, h2⟩ := hc
    set n := Char.toNat c with hn
    interval_cases n <;> exact absurd h (by decide)
  · exact h

/-- A string whose lowercase form the literal `"description:"` begins contains
a colon. -/
theorem contains_colon_of_lower_prefix {line : PyStr}
    (h : ("description:".toList).isPrefixOf (plower line) = true) :
    line.contains ':' = true := by
  rw [List.isPrefixOf_iff_prefix] at h
  have hmem : (':' : Char) ∈ plower line :=
    h.sublist.subset (by decide)
  obtain ⟨a, ha, hlow⟩ := List.mem_map.mp hmem
  have : a = ':' := toLower_eq_colon hlow
  subst this
  simpa [List.contains] using ha

/-- When a string contains the separator, `split(sep, 1)` yields exactly the
part before the first separator and the part after it. -/
theorem splitOnce_of_contains {s : PyStr} (h : s.contains ':' = true) :
    splitOnce ':' s = [s.takeWhile (fun c => !(c == ':')), afterFirst ':' s] := by
  have h' : (':' : Char) ∈ s := by simpa [List.contains] using h
  simp [splitOnce, afterFirst, h']

/-- A line whose first character is none of `1`–`5` does not open a block. -/
theorem opensBlock_false_of_head {c : Char} {rest : PyStr}
    (h1 : c ≠ '1') (h2 : c ≠ '2') (h3 : c ≠ '3') (h4 : c ≠ '4') (h5 : c ≠ '5') :
    opensBlock (c :: rest) = false := by
  have : ∀ p ∈ numberedMarkers, p.isPrefixOf (c :: rest) = false := by
    intro p hp
    rw [Bool.eq_false_iff]
    intro hpre
    rw [List.isPrefixOf_iff_prefix] at hpre
    obtain ⟨t, ht⟩ := hpre
    fin_cases hp <;> exact absurd (List.head_eq_of_cons_eq ht).symm (by assumption)
  simp only [opensBlock, Bool.and_eq_false_iff]
  left
  rw [List.any_eq_false]
  intro p hp
  simp [this p hp]

/-- A line that case-insensitively starts with `"description:"` is non-empty,
and its first character lowercases to `d`. -/
theorem head_of_desc_prefix {line : PyStr}
    (h : ("description:".toList).isPrefixOf (plower line) = true) :
    ∃ c rest, line = c :: rest ∧ Char.toLower c = 'd' := by
  rw [List.isPrefixOf_iff_prefix] at h
  obtain ⟨t, ht⟩ := h
  cases line with
  | nil => simp [plower] at ht
  | cons c rest =>
    exact ⟨c, rest, rfl, (List.head_eq_of_cons_eq ht).symm⟩

/-- The loop body at a block-opening line: flush the current idea and start a
fresh one. -/
theorem processLine_opensBlock (st : List Idea × Option Idea) (rawLine : PyStr)
    (h : opensBlock (pstrip rawLine) = true) :
    processLine st rawLine = (flushCurrent st.1 st.2, some (newIdea (pstrip rawLine))) := by
  have hne : pstrip rawLine ≠ [] := by
    intro he
    rw [he] at h
    exact absurd h (by decide)
  simp [processLine, hne, h]

/-- With no current idea, a non-block-opening line leaves the state unchanged. -/
theorem processLine_none (ideas : List Idea) (rawLine : PyStr)
    (h : opensBlock (pstrip rawLine) = false) :
    processLine (ideas, none) rawLine = (ideas, none) := by
  by_cases he : pstrip rawLine = []
  · simp [processLine, he]
  · simp [processLine, he, h]

/-- The loop body either leaves the accumulated idea list alone or flushes the
current idea into it; it never removes or reorders records. -/
theorem processLine_fst (st : List Idea × Option Idea) (l : PyStr) :
    (processLine st l).1 = st.1 ∨ (processLine st l).1 = flushCurrent st.1 st.2 := by
  obtain ⟨ideas, cur⟩ := st
  by_cases he : pstrip l = []
  · left; simp [processLine, he]
  · by_cases ho : opensBlock (pstrip l) = true
    · right; simp [processLine, he, ho]
    · cases cur with
      | none => left; simp [processLine, he, ho]
      | some c =>
        left
        simp only [processLine, he, ho, if_neg, if_false, Bool.false_eq_true]
        split_ifs <;> rfl

/-- Flushing preserves the non-empty-title invariant: the current idea is
appended only when its title is non-empty. -/
theorem titles_flushCurrent {ideas : List Idea} {cur : Option Idea}
    (h : ∀ r ∈ ideas, r.title ≠ ([] : PyStr)) :
    ∀ r ∈ flushCurrent ideas cur, r.title ≠ [] := by
  intro r hr
  cases cur with
  | none => exact h r hr
  | some c =>
    by_cases ht : c.title = []
    · rw [flushCurrent, if_pos ht] at hr
      exact h r hr
    · rw [flushCurrent, if_neg ht] at hr
      rcases List.mem_append.mp hr with hr | hr
      · exact h r hr
      · rw [List.mem_singleton.mp hr]
        exact ht

/-- The loop body preserves the non-empty-title invariant. -/
theorem titles_processLine {st : List Idea × Option Idea} {l : PyStr}
    (h : ∀ r ∈ st.1, r.title ≠ ([] : PyStr)) :
    ∀ r ∈ (processLine st l).1, r.title ≠ [] := by
  rcases processLine_fst st l with hf | hf <;> rw [hf]
  · exact h
  · exact titles_flushCurrent h

/-- The whole loop preserves the non-empty-title invariant. -/
theorem titles_foldl (ls : List PyStr) (st : List Idea × Option Idea)
    (h : ∀ r ∈ st.1, r.title ≠ ([] : PyStr)) :
    ∀ r ∈ (ls.foldl processLine st).1, r.title ≠ [] := by
  induction ls generalizing st with
  | nil => exact h
  | cons l ls ih => exact ih _ (titles_processLine h)

/-- If no line opens a block, the loop never creates a current idea and never
adds a record. -/
theorem foldl_none (ls : List PyStr) (ideas : List Idea)
    (h : ∀ l ∈ ls, opensBlock (pstrip l) = false) :
    ls.foldl processLine (ideas, none) = (ideas, none) := by
  induction ls with
  | nil => rfl
  | cons l ls ih =>
    rw [List.foldl_cons, processLine_none _ _ (h l (by simp))]
    exact ih (fun x hx => h x (by simp [hx]))

/-- Forgetting tags commutes with flushing. -/
theorem eraseIdx_flush (ideas : List (Nat × Idea)) (cur : Option (Nat × Idea)) :
    (flushCurrentIdx ideas cur).map Prod.snd =
      flushCurrent (ideas.map Prod.snd) (cur.map Prod.snd) := by
  cases cur with
  | none => rfl
  | some c =>
    by_cases ht : c.2.title = []
    · simp [flushCurrentIdx, flushCurrent, ht]
    · simp [flushCurrentIdx, flushCurrent, ht]

/-- Forgetting tags commutes with one loop iteration: the instrumented machine
simulates the plain one. -/
theorem eraseIdx_processLine (st : List (Nat × Idea) × Option (Nat × Idea))
    (i : Nat) (l : PyStr) :
    eraseIdx (processLineIdx st i l) = processLine (eraseIdx st) l := by
  obtain ⟨ideas, cur⟩ := st
  by_cases he : pstrip l = []
  · simp [processLineIdx, processLine, he, eraseIdx]
  · by_cases ho : opensBlock (pstrip l) = true
    · simp [processLineIdx, processLine, he, ho, eraseIdx, eraseIdx_flush]
    · cases cur with
      | none => simp [processLineIdx, processLine, he, ho, eraseIdx]
      | some c =>
        simp only [processLineIdx, processLine, he, ho, eraseIdx, Option.map_some',
          if_neg, if_false, Bool.false_eq_true, List.map_cons]
        split_ifs <;> rfl

/-- Forgetting tags commutes with the whole run. -/
theorem eraseIdx_runIdx (ls : List PyStr) (i : Nat)
    (st : List (Nat × Idea) × Option (Nat × Idea)) :
    eraseIdx (runIdx ls i st) = ls.foldl processLine (eraseIdx st) := by
  induction ls generalizing i st with
  | nil => rfl
  | cons l ls ih =>
    show eraseIdx (runIdx ls (i + 1) (processLineIdx st i l)) = _
    rw [ih, eraseIdx_processLine, List.foldl_cons]

/-- Monotonicity of the tagged-state invariant in the line bound. -/
theorem IdxOk_mono {st : List (Nat × Idea) × Option (Nat × Idea)} {n m : Nat}
    (h : IdxOk st n) (hnm : n ≤ m) : IdxOk st m := by
  obtain ⟨h1, h2, h3⟩ := h
  exact ⟨h1, fun p hp => lt_of_lt_of_le (h2 p hp) hnm,
    fun p hp => ⟨lt_of_lt_of_le ((h3 p hp).1) hnm, (h3 p hp).2⟩⟩

/-- Flushing a well-formed tagged state keeps the tags strictly increasing and
below the line bound. -/
theorem IdxOk_flush {ideas : List (Nat × Idea)} {cur : Option (Nat × Idea)}
    {n : Nat} (h : IdxOk (ideas, cur) n) :
    (flushCurrentIdx ideas cur).Pairwise (fun p q => p.1 < q.1) ∧
      ∀ p ∈ flushCurrentIdx ideas cur, p.1 < n := by
  obtain ⟨h1, h2, h3⟩ := h
  cases cur with
  | none => exact ⟨h1, h2⟩
  | some c =>
    by_cases ht : c.2.title = []
    · rw [flushCurrentIdx, if_pos ht]
      exact ⟨h1, h2⟩
    · rw [flushCurrentIdx, if_neg ht]
      have hc := h3 c rfl
      constructor
      · rw [List.pairwise_append]
        refine ⟨h1, List.pairwise_singleton _ _, ?_⟩
        intro a ha b hb
        rw [List.mem_singleton.mp hb]
        exact hc.2 a ha
      · intro p hp
        rcases List.mem_append.mp hp with hp | hp
        · exact h2 p hp
        · rw [List.mem_singleton.mp hp]
          exact hc.1

/-- Re-tagging the current idea's record (keeping its tag) preserves the
invariant. -/
theorem IdxOk_setCur {ideas : List (Nat × Idea)} {c : Nat × Idea} {n : Nat}
    (h : IdxOk (ideas, some c) n) (c' : Idea) :
    IdxOk (ideas, some (c.1, c')) (n + 1) := by
  obtain ⟨h1, h2, h3⟩ := h
  have hc := h3 c rfl
  refine ⟨h1, fun p hp => Nat.lt_succ_of_lt (h2 p hp), ?_⟩
  intro p hp
  rw [Option.mem_def, Option.some.injEq] at hp
  subst hp
  exact ⟨Nat.lt_succ_of_lt hc.1, hc.2⟩

/-- One iteration of the tagged machine preserves the invariant, advancing the
line bound. -/
theorem IdxOk_processLineIdx {st : List (Nat × Idea) × Option (Nat × Idea)}
    {n : Nat} (h : IdxOk st n) (l : PyStr) :
    IdxOk (processLineIdx st n l) (n + 1) := by
  obtain ⟨ideas, cur⟩ := st
  by_cases he : pstrip l = []
  · simpa [processLineIdx, he] using IdxOk_mono h (Nat.le_succ n)
  · by_cases ho : opensBlock (pstrip l) = true
    · have hf := IdxOk_flush h
      simp only [processLineIdx, he, ho, if_neg, if_true, if_false]
      refine ⟨hf.1, fun p hp => Nat.lt_succ_of_lt (hf.2 p hp), ?_⟩
      intro p hp
      rw [Option.mem_def, Option.some.injEq] at hp
      subst hp
      exact ⟨Nat.lt_succ_self n, hf.2⟩
    · cases cur with
      | none => simpa [processLineIdx, he, ho] using IdxOk_mono h (Nat.le_succ n)
      | some c =>
        simp only [processLineIdx, he, ho, if_neg, if_false, Bool.false_eq_true]
        split_ifs <;> exact IdxOk_setCur h _

/-- The whole tagged run starting from a well-formed state ends in a
well-formed state. -/
theorem IdxOk_runIdx (ls : List PyStr) (i : Nat)
    (st : List (Nat × Idea) × Option (Nat × Idea)) (h : IdxOk st i) :
    ∃ n, IdxOk (runIdx ls i st) n := by
  induction ls generalizing i st with
  | nil => exact ⟨i, h⟩
  | cons l ls ih => exact ih (i + 1) _ (IdxOk_processLineIdx h l)

/-- The tags of the parsed records are strictly increasing: each record's
opening line occurs strictly later in the text than that of the record before
it. -/
theorem parsedIdeasIdx_pairwise (response : PyStr) :
    (parsedIdeasIdx response).Pairwise (fun p q => p.1 < q.1) := by
  obtain ⟨n, hn⟩ := IdxOk_runIdx (splitChar '\n' (pstrip response)) 0 ([], none)
    ⟨List.Pairwise.nil, by simp, by simp⟩
  exact (IdxOk_flush hn).1

/-- Forgetting the tags of the instrumented parse gives exactly the plain
parsed records. -/
theorem parsedIdeasIdx_map_snd (response : PyStr) :
    (parsedIdeasIdx response).map Prod.snd = parsedIdeas response := by
  have h := eraseIdx_runIdx (splitChar '\n' (pstrip response)) 0 ([], none)
  have h1 := congrArg Prod.fst h
  have h2 := congrArg Prod.snd h
  simp only [eraseIdx, List.map_nil] at h1 h2
  unfold parsedIdeasIdx parsedIdeas
  dsimp only
  rw [eraseIdx_flush, h1, h2]
  simp

/-! ### Claims -/

/-- C1: `parse_ideas_response` is total (the embedding returns on every input,
matching the exception-to-fallback boundary in the code) and its result is
never empty: at minimum it is the single fallback record whose description is
the trimmed raw input. -/
theorem C1_total_nonempty (response : PyStr) :
    0 < (parse_ideas_response response).length := by
  unfold parse_ideas_response
  dsimp only
  split_ifs with h
  · simp
  · simpa [List.length_pos] using h

/-- C2: when no line of the input is a block opener (numbered marker plus a
colon), the parser returns exactly the one-element fallback: title
`"Travel Recommendations"`, description the trimmed input (so `""` for the
empty input), no highlights, no duration. -/
theorem C2_no_marker_fallback (response : PyStr)
    (h : ∀ l ∈ splitChar '\n' (pstrip response), opensBlock (pstrip l) = false) :
    parse_ideas_response response = [fallbackRecord response] := by
  have hempty : parsedIdeas response = [] := by
    unfold parsedIdeas
    dsimp only
    rw [foldl_none _ _ h]
    rfl
  unfold parse_ideas_response
  simp [hempty]

/-- C2 witness: the fallback on the empty input and on a colon-free text. -/
theorem C2_witness :
    parse_ideas_response ([] : PyStr) =
      [{ title := "Travel Recommendations".toList, description := [],
         highlights := [], duration := [] }] ∧
    parse_ideas_response ("Enjoy the city".toList) =
      [{ title := "Travel Recommendations".toList,
         description := "Enjoy the city".toList,
         highlights := [], duration := [] }] :=
  ⟨C2_no_marker_fallback _ (by decide), C2_no_marker_fallback _ (by decide)⟩

/-- C3 counterexample: on the opening line `"1. Trip:"` no text follows the
colon; the new idea's title is the empty string, not the entire line as the
claim states. -/
theorem C3_counterexample :
    (processLine ([], none) ("1. Trip:".toList)).2 =
      some { title := [], description := [], highlights := [], duration := [] } ∧
    ¬ (processLine ([], none) ("1. Trip:".toList)).2 =
      some { title := "1. Trip:".toList, description := [], highlights := [],
             duration := [] } := by decide

/-- C3 (amended): at a block-opening line the new idea's title is the text
after the line's first colon, trimmed — in particular the empty string when
nothing follows the colon. The whole-line fallback in the code is unreachable,
since an opening line always contains a colon. -/
theorem C3_title_after_colon (st : List Idea × Option Idea) (line : PyStr)
    (htrim : pstrip line = line) (h : opensBlock line = true) :
    (processLine st line).2 = some (newIdea line) ∧
    (newIdea line).title = pstrip (afterFirst ':' line) := by
  constructor
  · rw [processLine_opensBlock st line (by rwa [htrim]), htrim]
  · have hc : line.contains ':' = true := by
      unfold opensBlock at h
      simp only [Bool.and_eq_true] at h
      exact h.2
    unfold newIdea
    rw [splitOnce_of_contains hc]
    simp

/-- C3 witness: a concrete opening line with text after the colon. -/
theorem C3_witness :
    (processLine ([], none) ("1. City Break: Weekend in Lisbon".toList)).2 =
      some (newIdea ("1. City Break: Weekend in Lisbon".toList)) ∧
    (newIdea ("1. City Break: Weekend in Lisbon".toList)).title =
      "Weekend in Lisbon".toList :=
  C3_title_after_colon ([], none) _ (by decide) (by decide)

/-- C4: starting from a state with no current idea, a trimmed non-empty line
creates a current idea exactly when it starts with one of the literal markers
`"1."`–`"5."` and contains a colon somewhere. -/
theorem C4_open_condition (line : PyStr) (htrim : pstrip line = line)
    (hne : line ≠ []) :
    (processLine ([], none) line).2.isSome =
      (("1.".toList.isPrefixOf line || "2.".toList.isPrefixOf line ||
        "3.".toList.isPrefixOf line || "4.".toList.isPrefixOf line ||
        "5.".toList.isPrefixOf line) && line.contains ':') := by
  have hrhs : (("1.".toList.isPrefixOf line || "2.".toList.isPrefixOf line ||
      "3.".toList.isPrefixOf line || "4.".toList.isPrefixOf line ||
      "5.".toList.isPrefixOf line) && line.contains ':') = opensBlock line := by
    simp [opensBlock, numberedMarkers, Bool.or_assoc]
  rw [hrhs]
  cases ho : opensBlock line with
  | true =>
    rw [processLine_opensBlock _ _ (by rwa [htrim])]
    rfl
  | false =>
    rw [processLine_none _ _ (by rwa [htrim])]
    rfl

/-- C4 witness: `"1. Explore the old town"` has the numbered marker but no
colon, so it does not open a block. -/
theorem C4_witness :
    (processLine ([], none) ("1. Explore the old town".toList)).2.isSome =
      (("1.".toList.isPrefixOf ("1. Explore the old town".toList) ||
        "2.".toList.isPrefixOf ("1. Explore the old town".toList) ||
        "3.".toList.isPrefixOf ("1. Explore the old town".toList) ||
        "4.".toList.isPrefixOf ("1. Explore the old town".toList) ||
        "5.".toList.isPrefixOf ("1. Explore the old town".toList)) &&
        ("1. Explore the old town".toList).contains ':') :=
  C4_open_condition _ (by decide) (by decide)

/-- C5: every record the parser returns has a non-empty title, and the records
keep the order of their opening lines: the instrumented run projects onto the
plain run and its opening-line indices are strictly increasing. -/
theorem C5_titles_and_order (response : PyStr) :
    (∀ r ∈ parse_ideas_response response, r.title ≠ ([] : PyStr)) ∧
    (parsedIdeasIdx response).map Prod.snd = parsedIdeas response ∧
    (parsedIdeasIdx response).Pairwise (fun p q => p.1 < q.1) := by
  refine ⟨?_, parsedIdeasIdx_map_snd response, parsedIdeasIdx_pairwise response⟩
  intro r hr
  unfold parse_ideas_response at hr
  dsimp only at hr
  split_ifs at hr with h
  · rw [List.mem_singleton.mp hr]
    simp [fallbackRecord]
  · revert r hr
    unfold parsedIdeas
    dsimp only
    exact titles_flushCurrent (titles_foldl _ _ (by simp))

/-- C6: the eight-line example of the specification parses to exactly the two
expected records. -/
theorem C6_section8_example :
    parse_ideas_response
      ("1. Coastal Road Trip: Scenic drives\nDescription: Drive along the coast visiting small towns.\nHighlight: Lighthouse at sunset\n- Local seafood tasting\nDuration: 5 days\n2. Mountain Retreat: Peaceful cabins\nDescription: Stay in a secluded cabin.\nDuration: 3 days").toList =
      [{ title := "Scenic drives".toList,
         description := "Drive along the coast visiting small towns.".toList,
         highlights := ["Lighthouse at sunset".toList, "Local seafood tasting".toList],
         duration := "5 days".toList },
       { title := "Peaceful cabins".toList,
         description := "Stay in a secluded cabin.".toList,
         highlights := [],
         duration := "3 days".toList }] := by decide

/-- C7: inside an open block, a line that case-insensitively starts with
`"description:"` replaces the accumulated description — whatever it was,
including content added by continuation lines or an earlier description line —
with the text after the line's first colon, trimmed; nothing else changes. -/
theorem C7_description_overwrites (ideas : List Idea) (cur : Idea) (line : PyStr)
    (htrim : pstrip line = line)
    (h : ("description:".toList).isPrefixOf (plower line) = true) :
    processLine (ideas, some cur) line =
      (ideas, some { cur with description := pstrip (afterFirst ':' line) }) := by
  obtain ⟨c, rest, hline, hd⟩ := head_of_desc_prefix h
  have hne : line ≠ [] := by rw [hline]; exact List.cons_ne_nil c rest
  have hob : opensBlock line = false := by
    rw [hline]
    apply opensBlock_false_of_head <;>
      (intro hc; rw [hc] at hd; exact absurd hd (by decide))
  have hcol : line.contains ':' = true := contains_colon_of_lower_prefix h
  unfold processLine
  dsimp only
  rw [htrim, if_neg hne]
  rw [if_neg (show ¬ opensBlock line = true by rw [hob]; exact Bool.false_ne_true)]
  rw [if_pos h]
  rw [splitOnce_of_contains hcol]
  rfl

/-- C7 witness: a `Description:` line overwrites an already accumulated
description. -/
theorem C7_witness :
    processLine
      ([], some ⟨"T".toList, "old text built from earlier lines".toList, [], []⟩)
      ("Description: new text".toList) =
      ([], some ⟨"T".toList, "new text".toList, [], []⟩) :=
  C7_description_overwrites _ _ _ (by decide) (by decide)

/-- C8: while a block is open and its description is still empty, a trimmed
non-empty line that neither opens a block, nor starts (case-insensitively)
with one of the three labels, nor starts with a dash, leaves the accumulated
records and every field of the current idea unchanged. -/
theorem C8_unlabeled_line_dropped (ideas : List Idea) (cur : Idea) (line : PyStr)
    (htrim : pstrip line = line) (hne : line ≠ [])
    (hopen : opensBlock line = false)
    (hdesc : ("description:".toList).isPrefixOf (plower line) = false)
    (hhigh : ("highlight".toList).isPrefixOf (plower line) = false)
    (hdur : ("duration:".toList).isPrefixOf (plower line) = false)
    (hdash : ("-".toList).isPrefixOf line = false)
    (hempty : cur.description = []) :
    processLine (ideas, some cur) line = (ideas, some cur) := by
  unfold processLine
  dsimp only
  rw [htrim, if_neg hne]
  rw [if_neg (show ¬ opensBlock line = true by rw [hopen]; exact Bool.false_ne_true)]
  rw [if_neg (show ¬ ("description:".toList).isPrefixOf (plower line) = true by
    rw [hdesc]; exact Bool.false_ne_true)]
  rw [if_neg (show ¬ ("highlight".toList).isPrefixOf (plower line) = true by
    rw [hhigh]; exact Bool.false_ne_true)]
  rw [if_neg (show ¬ ("duration:".toList).isPrefixOf (plower line) = true by
    rw [hdur]; exact Bool.false_ne_true)]
  rw [if_neg (show ¬ (!(cur.description.isEmpty) &&
      !(("-".toList).isPrefixOf line)) = true by rw [hempty]; simp)]
  rw [if_neg (show ¬ ("-".toList).isPrefixOf line = true by
    rw [hdash]; exact Bool.false_ne_true)]

/-- C8 witness: `"Some random note"` right after a block opens is dropped. -/
theorem C8_witness :
    processLine ([], some ⟨"City Break".toList, [], [], []⟩)
      ("Some random note".toList) =
      ([], some ⟨"City Break".toList, [], [], []⟩) :=
  C8_unlabeled_line_dropped _ _ _ (by decide) (by decide) (by decide) (by decide)
    (by decide) (by decide) (by decide) rfl

/-- C9: the parser is deterministic and side-effect free — it is embedded as a
pure function, so identical inputs give deeply equal outputs. -/
theorem C9_deterministic (s₁ s₂ : PyStr) (h : s₁ = s₂) :
    parse_ideas_response s₁ = parse_ideas_response s₂ :=
  congrArg parse_ideas_response h

/-- C9 witness: two invocations on the same concrete input agree. -/
theorem C9_witness :
    parse_ideas_response ("1. A: T\nDescription: D".toList) =
      parse_ideas_response ("1. A: T\nDescription: D".toList) :=
  C9_deterministic _ _ rfl

/-- C10: when only whitespace follows the first colon of a block-opening line,
the opened idea's title is the empty string; a current idea with an empty
title is discarded both by the flush at the next block opening and by the
end-of-input flush, so it never appears in the output. -/
theorem C10_blank_title_discarded (ideas : List Idea) (cur : Option Idea)
    (line : PyStr) (d : PyStr) (hl : List PyStr) (du : PyStr)
    (htrim : pstrip line = line) (hopen : opensBlock line = true)
    (hblank : pstrip (afterFirst ':' line) = []) :
    (processLine (ideas, cur) line).2 = some ⟨[], [], [], []⟩ ∧
    flushCurrent ideas (some ⟨[], d, hl, du⟩) = ideas ∧
    (processLine (ideas, some ⟨[], d, hl, du⟩) line).1 = ideas := by
  have hnew : newIdea line = ⟨[], [], [], []⟩ := by
    have hc : line.contains ':' = true := by
      unfold opensBlock at hopen
      simp only [Bool.and_eq_true] at hopen
      exact hopen.2
    unfold newIdea
    rw [splitOnce_of_contains hc]
    simp [hblank]
  refine ⟨?_, ?_, ?_⟩
  · rw [processLine_opensBlock _ _ (by rwa [htrim]), htrim, hnew]
  · simp [flushCurrent]
  · rw [processLine_opensBlock _ _ (by rwa [htrim])]
    simp [flushCurrent]

/-- C10 witness: the block opened by `"2. Trip:"` has an empty title and is
dropped by both flushes. -/
theorem C10_witness :
    (processLine ([⟨"A".toList, [], [], []⟩], none) ("2. Trip:".toList)).2 =
      some ⟨[], [], [], []⟩ ∧
    flushCurrent [⟨"A".toList, [], [], []⟩]
      (some ⟨[], "hidden".toList, ["h".toList], "3 days".toList⟩) =
      [⟨"A".toList, [], [], []⟩] ∧
    (processLine ([⟨"A".toList, [], [], []⟩],
      some ⟨[], "hidden".toList, ["h".toList], "3 days".toList⟩)
      ("2. Trip:".toList)).1 =
      [⟨"A".toList, [], [], []⟩] :=
  C10_blank_title_discarded _ _ _ _ _ _ (by decide) (by decide) (by decide)

end TravelAssistant
